import Mathlib

/-!
Shallow embedding of `src/navigation/_CollapsingNavigationMenu.jsx`:
a collapsible navigation tree with a selection-path resolver
(`keysToItem` / `openKeysToItem`), expand/collapse state (`handleOnClick`),
keyboard cursor handlers, and the render pass that builds the list of
visible nodes.

Definitions come first, theorems after.
-/

/-! ## Data model and path resolver -/

/-- A navigation item: `{ name, path, childItems }` where `childItems` may be
absent (JS `undefined`, modelled as `none`) or a list (possibly empty). -/
inductive NavItem : Type where
  | mk (name : String) (path : String) (childItems : Option (List NavItem)) : NavItem

def NavItem.name : NavItem → String
  | .mk n _ _ => n

def NavItem.path : NavItem → String
  | .mk _ p _ => p

def NavItem.childItems : NavItem → Option (List NavItem)
  | .mk _ _ c => c

mutual
/-- `keysToItem(item, selectedPath)` from the source: walks `item.childItems`
in order; a direct child whose `path` equals `selectedPath` yields
`[item.path]`; otherwise a nonempty recursive result `childPaths` yields
`childPaths ++ [item.path]`; the first hit stops the iteration. -/
def keysToItem (item : NavItem) (selectedPath : Option String) : List String :=
  match item with
  | .mk _ _ none => []
  | .mk _ p (some cs) => keysToChildren p cs selectedPath

/-- The `childItems.some(...)` loop of `keysToItem`, over the list of children
of an item whose own path is `parentPath`. -/
def keysToChildren (parentPath : String) (cs : List NavItem)
    (selectedPath : Option String) : List String :=
  match cs with
  | [] => []
  | c :: rest =>
    if selectedPath = some c.path then [parentPath]
    else
      let childPaths := keysToItem c selectedPath
      if childPaths ≠ [] then childPaths ++ [parentPath]
      else keysToChildren parentPath rest selectedPath
end

/-- OpenKeys: the JS object mapping a path to its recorded open flag;
a missing key is `none` (JS `undefined`). -/
def OpenKeys : Type := String → Option Bool

/-- JS truthiness of `openKeys[path]`. -/
def isOpenKey (ok : OpenKeys) (p : String) : Bool :=
  (ok p).getD false

/-- `openKeysToItem(menuItems, selectedPath)`: folds the resolved key list
into an object mapping each path to `true`. -/
def openKeysToItem (menuItems : NavItem) (selectedPath : Option String) : OpenKeys :=
  (keysToItem menuItems selectedPath).foldl
    (fun acc p => fun q => if q = p then some true else acc q)
    (fun _ => none)

mutual
/-- Spec-side characterization (from the spec's words, depth-first document
order): the strict descendants of `item` in pre-order, each paired with its
ancestor chain inside `item`'s subtree, nearest ancestor first and ending
with `item.path`.  The order is exactly the order in which `keysToItem`
compares node paths against the selected path. -/
def preorderDescendants (item : NavItem) : List (String × List String) :=
  match item with
  | .mk _ _ none => []
  | .mk _ p (some cs) => preorderDescList p cs

/-- Pre-order descendant entries contributed by the children list `cs` of a
node whose path is `parentPath`. -/
def preorderDescList (parentPath : String) (cs : List NavItem) :
    List (String × List String) :=
  match cs with
  | [] => []
  | c :: rest =>
    (c.path, [parentPath]) ::
      ((preorderDescendants c).map (fun e => (e.1, e.2 ++ [parentPath]))
        ++ preorderDescList parentPath rest)
end

/-- All nodes of `item`'s subtree, `item` itself first, each with its
nearest-first chain of strict ancestors inside the subtree.  A node listed
with chain `anc` sits at depth `anc.length + 1` in the subtree. -/
def allEntries (item : NavItem) : List (String × List String) :=
  (item.path, []) :: preorderDescendants item

/-- All node paths occurring in `item`'s subtree, `item` itself included. -/
def allPaths (item : NavItem) : List String :=
  (allEntries item).map Prod.fst

/-- The ancestor chain of the first entry whose path is the selected one,
`[]` when no entry matches (or when the selected path is absent). -/
def firstMatchChain (l : List (String × List String)) (sp : Option String) :
    List String :=
  match l.find? (fun e => sp = some e.1) with
  | some e => e.2
  | none => []

/-- A leaf item (no `childItems`). -/
def leafItem (n p : String) : NavItem := .mk n p none

/-- The spec's example tree `Root → [A → [A1, A2], B]`, with each item's
path equal to its name. -/
def exRoot : NavItem :=
  .mk "Root" "Root"
    (some [.mk "A" "A" (some [leafItem "A1" "A1", leafItem "A2" "A2"]),
           leafItem "B" "B"])

/-- A second example tree, with the path `"P"` occurring twice: at depth 3
(inside the earlier sibling `X`) and at depth 2 (direct child of the root). -/
def dupRoot : NavItem :=
  .mk "Root" "Root"
    (some [.mk "X" "X" (some [leafItem "P" "P"]), leafItem "P" "P"])

/-! ## Keyboard cursor controller -/

/-- An entry pushed onto `visibleNodes` during a render pass:
`{ id, parent }`, where `id` is derived from the item's name and `parent`
is the id of the parent node (`""` at the top level). -/
structure VisibleNode where
  id : String
  parent : String
deriving Repr, DecidableEq

/-- What the handler reads back from the DOM for a node id:
`ariaExpanded` (`'true'`/`'false'`/absent) and the truthiness of
`ariaHasPopup`. -/
structure DomItemInfo where
  ariaExpanded : Option Bool
  ariaHasPopup : Bool
deriving Repr, DecidableEq

/-- The mutable state the handlers touch: the `openKeys` object, the
`cursor` ref (a JS number, so `Int`) and the `currentNodeId` state. -/
structure NavState where
  openKeys : OpenKeys
  cursor : Int
  currentNodeId : Option String

/-- JS array indexing `nodes[i]`: `none` where JS yields `undefined`
(and the subsequent `.id` access would throw). -/
def jsIndex (nodes : List VisibleNode) (i : Int) : Option VisibleNode :=
  if i < 0 then none else nodes[i.toNat]?

/-- JS `Array.prototype.findIndex`: the first index satisfying the
predicate, `-1` when none does. -/
def jsFindIndex (p : VisibleNode → Bool) : List VisibleNode → Int
  | [] => -1
  | x :: xs =>
    if p x then 0
    else
      let r := jsFindIndex p xs
      if r = -1 then -1 else r + 1

/-- JS `Array.prototype.slice(start, stop)` with clamping and negative
index wrapping. -/
def jsSlice (l : List VisibleNode) (start stop : Int) : List VisibleNode :=
  let n : Int := l.length
  let s := if start < 0 then max (n + start) 0 else min start n
  let e := if stop < 0 then max (n + stop) 0 else min stop n
  (l.take e.toNat).drop s.toNat

/-- `{...openKeys, [path]: !openKeys[path]}`. -/
def toggleOpenKey (ok : OpenKeys) (p : String) : OpenKeys :=
  fun q => if q = p then some (!(isOpenKey ok p)) else ok q

/-- `handleOnClick(event, item)`: a leaf (no `childItems`) fires the
`onSelect` callback with its path; an item with `childItems` has its open
flag flipped in `openKeys`.  The second component is the selection event. -/
def handleOnClick (item : NavItem) (s : NavState) : NavState × Option String :=
  match item.childItems with
  | none => (s, some item.path)
  | some _ => ({ s with openKeys := toggleOpenKey s.openKeys item.path }, none)

/-- `handleDownArrow`. -/
def handleDownArrow (nodes : List VisibleNode) (s : NavState) : Option NavState :=
  if s.cursor + 1 < (nodes.length : Int) then
    match jsIndex nodes (s.cursor + 1) with
    | some n => some { s with cursor := s.cursor + 1, currentNodeId := some n.id }
    | none => none
  else some s

/-- `handleUpArrow`. -/
def handleUpArrow (nodes : List VisibleNode) (s : NavState) : Option NavState :=
  if 1 ≤ s.cursor then
    match jsIndex nodes (s.cursor - 1) with
    | some n => some { s with cursor := s.cursor - 1, currentNodeId := some n.id }
    | none => none
  else some s

/-- `findParentNode`: reverse lookup of the current node, then of its
parent's index; `none` models the places where the JS code would throw
(`.parent` of `undefined`, `.id` of `visibleNodes[-1]`). -/
def findParentNode (nodes : List VisibleNode) (s : NavState) : Option NavState :=
  match s.currentNodeId with
  | none => some s
  | some cid =>
    match nodes.find? (fun el => el.id = cid) with
    | none => none
    | some node =>
      if node.parent ≠ "" then
        match jsIndex nodes (jsFindIndex (fun el => el.id = node.parent) nodes) with
        | some n =>
          some { s with cursor := jsFindIndex (fun el => el.id = node.parent) nodes,
                        currentNodeId := some n.id }
        | none => none
      else some s

/-- One step of the `sortedNodes.find(...)` callback chain of
`findNodeMatching`: `none` models the throw on `el.id[0]` of an empty id;
`some none` is "no match"; `some (some m)` the first match. -/
def findCharMatch (char : Char) : List VisibleNode → Option (Option VisibleNode)
  | [] => some none
  | el :: rest =>
    match el.id.data with
    | [] => none
    | c :: _ => if c.toUpper = char then some (some el) else findCharMatch char rest

/-- `findNodeMatching(char)`: searches `slice(cursor+1, length) ++
slice(0, cursor)`; on a match sets the cursor by a `findIndex` on the
match's id and the current node id to the match's id. -/
def findNodeMatching (nodes : List VisibleNode) (char : Char) (s : NavState) :
    Option NavState :=
  match findCharMatch char
      (jsSlice nodes (s.cursor + 1) (nodes.length : Int) ++ jsSlice nodes 0 s.cursor) with
  | none => none
  | some none => some s
  | some (some m) =>
    some { s with cursor := jsFindIndex (fun el => el.id = m.id) nodes,
                  currentNodeId := some m.id }

/-- `handleKeyDown(event, item)`: the keycode switch.  `dom` is
`document.getElementById` restricted to the fields the handler reads;
`none` results model thrown exceptions.  Keycodes follow `keycode-js`:
SPACE 32, RETURN 13, DOWN 40, UP 38, RIGHT 39, LEFT 37, HOME 36, END 35,
TAB 9, A 65 … Z 90. -/
def handleKeyDown (dom : String → Option DomItemInfo) (nodes : List VisibleNode)
    (keyCode : Nat) (shiftKey : Bool) (item : NavItem) (s : NavState) :
    Option (NavState × Option String) :=
  if keyCode = 32 ∨ keyCode = 13 then some (handleOnClick item s)
  else if keyCode = 40 then (handleDownArrow nodes s).map (fun s2 => (s2, none))
  else if keyCode = 38 then (handleUpArrow nodes s).map (fun s2 => (s2, none))
  else if keyCode = 39 then
    match s.currentNodeId with
    | none => some (s, none)
    | some cid =>
      match dom cid with
      | none => none
      | some di =>
        if di.ariaExpanded = some true then
          (handleDownArrow nodes s).map (fun s2 => (s2, none))
        else if di.ariaHasPopup
            ∧ (di.ariaExpanded = none ∨ di.ariaExpanded = some false) then
          some (handleOnClick item s)
        else some (s, none)
  else if keyCode = 37 then
    match s.currentNodeId with
    | none => some (s, none)
    | some cid =>
      match dom cid with
      | none => none
      | some di =>
        if di.ariaExpanded = some true then some (handleOnClick item s)
        else if ¬di.ariaHasPopup ∨ di.ariaExpanded = none
            ∨ di.ariaExpanded = some false then
          (findParentNode nodes s).map (fun s2 => (s2, none))
        else some (s, none)
  else if keyCode = 36 then
    match jsIndex nodes 0 with
    | some n => some ({ s with cursor := 0, currentNodeId := some n.id }, none)
    | none => none
  else if keyCode = 35 then
    match jsIndex nodes ((nodes.length : Int) - 1) with
    | some n =>
      some ({ s with cursor := (nodes.length : Int) - 1,
                     currentNodeId := some n.id }, none)
    | none => none
  else if keyCode = 9 then
    if shiftKey then (handleUpArrow nodes s).map (fun s2 => (s2, none))
    else (handleDownArrow nodes s).map (fun s2 => (s2, none))
  else if 65 ≤ keyCode ∧ keyCode ≤ 90 then
    (findNodeMatching nodes (Char.ofNat keyCode) s).map (fun s2 => (s2, none))
  else some (s, none)

/-- First-character typeahead match, as the spec words it: the first
character of the node's id, uppercased, equals the pressed (uppercase)
letter; an empty id matches nothing. -/
def firstCharMatches (ch : Char) (v : VisibleNode) : Bool :=
  match v.id.data with
  | [] => false
  | c :: _ => c.toUpper = ch

/-! ## Render pass -/

/-- `item.name.split(' ').join('-')`. -/
def mkId (name : String) : String :=
  String.intercalate "-" (name.splitOn " ")

mutual
/-- `renderMenuItems(currentMenuItem, parent)` restricted to its only
side effect on the model: the sequence of `visibleNodes.push({id, parent})`
calls it performs, in order.  An absent `currentMenuItem` renders nothing;
a rendered item's children are rendered (hence pushed) exactly when its
open flag is truthy. -/
def renderMenuItems (ok : OpenKeys) : Option (List NavItem) → String → List VisibleNode
  | none, _ => []
  | some items, parent => renderItemList ok items parent

/-- The `currentMenuItem.map(...)` body of `renderMenuItems`. -/
def renderItemList (ok : OpenKeys) : List NavItem → String → List VisibleNode
  | [], _ => []
  | .mk nm p ci :: rest, parent =>
    ⟨mkId nm, parent⟩ ::
      ((if isOpenKey ok p then renderMenuItems ok ci (mkId nm) else [])
        ++ renderItemList ok rest parent)
end

mutual
/-- Spec-side characterization: full pre-order traversal of a children
list, each node paired with the list of its strict ancestors' paths
(excluding the un-rendered root item), together with the visible-node
entry the render pass would push for it. -/
def preorderWithAnc (items : List NavItem) (parent : String)
    (anc : List String) : List (VisibleNode × List String) :=
  match items with
  | [] => []
  | .mk nm p ci :: rest =>
    (⟨mkId nm, parent⟩, anc) ::
      (preorderWithAncOpt ci (mkId nm) (p :: anc)
        ++ preorderWithAnc rest parent anc)

/-- `preorderWithAnc` lifted to an optional children list. -/
def preorderWithAncOpt (items : Option (List NavItem)) (parent : String)
    (anc : List String) : List (VisibleNode × List String) :=
  match items with
  | none => []
  | some cs => preorderWithAnc cs parent anc
end

/-- Spec-side characterization: the pre-order traversal restricted to the
nodes all of whose strict ancestors are marked open in `ok`. -/
def specVisibleNodes (ok : OpenKeys) (items : List NavItem) : List VisibleNode :=
  (preorderWithAnc items "" []).filterMap
    (fun e => if e.2.all (isOpenKey ok) then some e.1 else none)

/-- An OpenKeys object with no keys. -/
def noOpenKeys : OpenKeys := fun _ => none

/-- The visible-node list `["Apple", "Banana", "Cherry"]` of the spec's
typeahead example. -/
def fruitNodes : List VisibleNode :=
  [⟨"Apple", ""⟩, ⟨"Banana", ""⟩, ⟨"Cherry", ""⟩]

/-- Two visible nodes sharing the id `"Apple"` (distinct `parent` fields). -/
def dupNodes : List VisibleNode := [⟨"Apple", "x"⟩, ⟨"Apple", "y"⟩]

/-- The visible-node list of the small tree `P → [Ch]`, both levels open. -/
def pcNodes : List VisibleNode := [⟨"P", ""⟩, ⟨"Ch", "P"⟩]

/-! ## Theorems -/

theorem preorderDescList_chains_ne_nil (parentPath : String) (cs : List NavItem) :
    ∀ e ∈ preorderDescList parentPath cs, e.2 ≠ [] := by
  induction cs with
  | nil => simp [preorderDescList]
  | cons c rest ih =>
    intro e he
    simp only [preorderDescList, List.mem_cons, List.mem_append, List.mem_map] at he
    rcases he with h | ⟨a, _, rfl⟩ | h
    · subst h; simp
    · simp
    · exact ih e h

theorem preorderDescendants_chains_ne_nil (item : NavItem) :
    ∀ e ∈ preorderDescendants item, e.2 ≠ [] := by
  match item with
  | .mk n p none => simp [preorderDescendants]
  | .mk n p (some cs) =>
    simpa [preorderDescendants] using preorderDescList_chains_ne_nil p cs

mutual
/-- `keysToItem` returns the ancestor chain of the first pre-order
descendant whose path equals the selected path, and `[]` when none does. -/
theorem keysToItem_eq_firstMatch (item : NavItem) (sp : Option String) :
    keysToItem item sp = firstMatchChain (preorderDescendants item) sp := by
  match item with
  | .mk n p none => simp [keysToItem, preorderDescendants, firstMatchChain]
  | .mk n p (some cs) =>
    simp only [keysToItem, preorderDescendants]
    exact keysToChildren_eq_firstMatch p cs sp

theorem keysToChildren_eq_firstMatch (parentPath : String) (cs : List NavItem)
    (sp : Option String) :
    keysToChildren parentPath cs sp
      = firstMatchChain (preorderDescList parentPath cs) sp := by
  match cs with
  | [] => simp [keysToChildren, preorderDescList, firstMatchChain]
  | c :: rest =>
    by_cases hc : sp = some c.path
    · simp [keysToChildren, preorderDescList, firstMatchChain, hc]
    · have hrec := keysToItem_eq_firstMatch c sp
      have hrest := keysToChildren_eq_firstMatch parentPath rest sp
      simp only [keysToChildren, hc, if_false, ite_false]
      rcases hfind : (preorderDescendants c).find? (fun e => sp = some e.1) with
        _ | ⟨q, chain⟩
      · have hnil : keysToItem c sp = [] := by
          rw [hrec]; simp [firstMatchChain, hfind]
        simp only [hnil, ne_eq, not_true_eq_false, if_false]
        rw [hrest]
        simp only [firstMatchChain, preorderDescList]
        rw [List.find?_cons_of_neg _ (by simpa using hc), List.find?_append]
        have hmapped :
            ((preorderDescendants c).map
              (fun e => (e.1, e.2 ++ [parentPath]))).find? (fun e => sp = some e.1)
              = none := by
          rw [List.find?_map]
          have : ((fun e : String × List String => decide (sp = some e.1)) ∘
              (fun e : String × List String => (e.1, e.2 ++ [parentPath])))
              = (fun e : String × List String => decide (sp = some e.1)) := by
            funext e; rfl
          rw [this, hfind]
          rfl
        rw [hmapped]
        rfl
      · have hchain : keysToItem c sp = chain := by
          rw [hrec]; simp [firstMatchChain, hfind]
        have hne : chain ≠ [] :=
          preorderDescendants_chains_ne_nil c (q, chain)
            (List.mem_of_find?_eq_some hfind)
        simp only [hchain, ne_eq, hne, not_false_eq_true, if_true]
        simp only [firstMatchChain, preorderDescList]
        rw [List.find?_cons_of_neg _ (by simpa using hc), List.find?_append]
        have hmapped :
            ((preorderDescendants c).map
              (fun e => (e.1, e.2 ++ [parentPath]))).find? (fun e => sp = some e.1)
              = some (q, chain ++ [parentPath]) := by
          rw [List.find?_map]
          have : ((fun e : String × List String => decide (sp = some e.1)) ∘
              (fun e : String × List String => (e.1, e.2 ++ [parentPath])))
              = (fun e : String × List String => decide (sp = some e.1)) := by
            funext e; rfl
          rw [this, hfind]
          rfl
        rw [hmapped]
        rfl
end

theorem firstMatchChain_of_nodup {l : List (String × List String)} {p : String}
    {a : List String} (hnd : (l.map Prod.fst).Nodup) (hmem : (p, a) ∈ l) :
    firstMatchChain l (some p) = a := by
  induction l with
  | nil => cases hmem
  | cons hd rest ih =>
    obtain ⟨q, b⟩ := hd
    simp only [List.map_cons, List.nodup_cons] at hnd
    rcases List.mem_cons.mp hmem with heq | htail
    · obtain ⟨rfl, rfl⟩ := Prod.mk.injEq .. ▸ heq
      simp [firstMatchChain, List.find?_cons_of_pos]
    · have hpq : p ≠ q := by
        intro h; subst h
        exact hnd.1 (List.mem_map.mpr ⟨(p, a), htail, rfl⟩)
      have hrec := ih hnd.2 htail
      simp only [firstMatchChain] at hrec ⊢
      rw [List.find?_cons_of_neg _ (by simpa using hpq)]
      exact hrec

/-- The paths of `allEntries` split as the root path followed by the
descendant paths. -/
theorem allPaths_eq (item : NavItem) :
    allPaths item = item.path :: (preorderDescendants item).map Prod.fst := by
  simp [allPaths, allEntries]

/-- C1: for a tree whose node paths are pairwise distinct, `keysToItem`
applied to a path present in the tree returns exactly that node's strict
ancestor paths (so `d − 1` of them for a node at depth `d`, since an entry
`(p, anc)` of `allEntries` has `anc.length + 1` equal to the node's depth),
ordered from nearest ancestor to the root. -/
theorem keysToItem_returns_ancestors (item : NavItem) (p : String)
    (anc : List String) (hnd : (allPaths item).Nodup)
    (hmem : (p, anc) ∈ allEntries item) :
    keysToItem item (some p) = anc := by
  rw [keysToItem_eq_firstMatch]
  rw [allPaths_eq] at hnd
  rcases List.mem_cons.mp hmem with heq | htail
  · obtain ⟨rfl, rfl⟩ := Prod.mk.injEq .. ▸ heq
    have hfind : (preorderDescendants item).find? (fun e => some item.path = some e.1)
        = none := by
      apply List.find?_eq_none.mpr
      intro e he
      have hin : e.1 ∈ (preorderDescendants item).map Prod.fst :=
        List.mem_map.mpr ⟨e, he, rfl⟩
      simp only [List.nodup_cons] at hnd
      intro h
      have hpe : item.path = e.1 := by simpa using h
      exact hnd.1 (hpe.symm ▸ hin)
    simp only [firstMatchChain]
    rw [hfind]
  · exact firstMatchChain_of_nodup (List.nodup_cons.mp hnd).2 htail

/-- C1 witness: in the example tree the node `A1` sits at depth 3 and its
ancestor chain is `["A", "Root"]`. -/
theorem keysToItem_returns_ancestors_witness :
    keysToItem exRoot (some "A1") = ["A", "Root"] :=
  keysToItem_returns_ancestors exRoot "A1" ["A", "Root"] (by decide) (by decide)

/-- C2 counterexample: on the tree `Root → [A → [A1, A2], B]` with selected
path `"A1"`, `keysToItem` applied to the root item does NOT return `["A"]`:
it returns `["A", "Root"]`, because the loop appends `item.path` at every
level, the root included. -/
theorem keysToItem_example_ne_A_only :
    keysToItem exRoot (some "A1") = ["A", "Root"] ∧
      keysToItem exRoot (some "A1") ≠ ["A"] := by
  constructor
  · rfl
  · decide

/-- C2 amended: on the tree `Root → [A → [A1, A2], B]` with selected path
`"A1"`, `keysToItem` on the root item returns `["A", "Root"]` (the nearest
ancestor first, then the root item's own path). -/
theorem keysToItem_example_eq_A_Root :
    keysToItem exRoot (some "A1") = ["A", "Root"] := rfl

/-- C6: when the selected path does not occur as any node's path in the tree
(also when it is absent, `none`), `keysToItem` returns the empty list and
`openKeysToItem` therefore forces no key open. -/
theorem keysToItem_absent_path_empty (item : NavItem) (sp : Option String)
    (h : ∀ p ∈ allPaths item, sp ≠ some p) :
    keysToItem item sp = [] ∧ ∀ q, openKeysToItem item sp q = none := by
  have hmain : keysToItem item sp = [] := by
    rw [keysToItem_eq_firstMatch]
    have hfind : (preorderDescendants item).find? (fun e => sp = some e.1) = none := by
      apply List.find?_eq_none.mpr
      intro e he
      have hmem : e.1 ∈ allPaths item := by
        rw [allPaths_eq]
        exact List.mem_cons_of_mem _ (List.mem_map.mpr ⟨e, he, rfl⟩)
      simpa using h e.1 hmem
    simp [firstMatchChain, hfind]
  refine ⟨hmain, fun q => ?_⟩
  simp [openKeysToItem, hmain]

theorem keysToItem_absent_path_empty_witness :
    keysToItem exRoot (some "Z") = [] ∧ openKeysToItem exRoot (some "Z") "A" = none :=
  ⟨(keysToItem_absent_path_empty exRoot (some "Z") (by decide)).1,
   (keysToItem_absent_path_empty exRoot (some "Z") (by decide)).2 "A"⟩

/-- C7: `keysToItem` records the ancestors of the first match in depth-first
document order — its result is the ancestor chain of the first entry of the
pre-order descendant enumeration whose path equals the selected path — and
once the match is found at or inside the first child, the later sibling
branches do not influence the result at all. -/
theorem keysToItem_first_match_wins :
    (∀ (item : NavItem) (sp : Option String),
      keysToItem item sp = firstMatchChain (preorderDescendants item) sp) ∧
    (∀ (parentPath : String) (c : NavItem) (rest rest' : List NavItem)
      (sp : Option String),
      (sp = some c.path ∨ keysToItem c sp ≠ []) →
      keysToChildren parentPath (c :: rest) sp
        = keysToChildren parentPath (c :: rest') sp) := by
  refine ⟨keysToItem_eq_firstMatch, ?_⟩
  intro parentPath c rest rest' sp hmatch
  by_cases hc : sp = some c.path
  · simp [keysToChildren, hc]
  · have hne : keysToItem c sp ≠ [] := hmatch.resolve_left hc
    simp [keysToChildren, hc, hne]

theorem keysToItem_first_match_wins_witness :
    keysToChildren "Root" [NavItem.mk "X" "X" (some [leafItem "P" "P"]),
        leafItem "P" "P"] (some "P")
      = keysToChildren "Root" [NavItem.mk "X" "X" (some [leafItem "P" "P"])]
        (some "P") :=
  keysToItem_first_match_wins.2 "Root" (NavItem.mk "X" "X" (some [leafItem "P" "P"]))
    [leafItem "P" "P"] [] (some "P") (Or.inr (by decide))

theorem handleOnClick_fst_cursor (item : NavItem) (s : NavState) :
    (handleOnClick item s).1.cursor = s.cursor ∧
      (handleOnClick item s).1.currentNodeId = s.currentNodeId := by
  cases item with
  | mk n p c => cases c <;> exact ⟨rfl, rfl⟩

/-- C5: activating an item that has `childItems` produces no selection
event, flips exactly the boolean recorded under the item's path, leaves
every other key of OpenKeys (in particular every descendant's recorded
flag) unchanged, and doing it twice restores every other key to its
original value. -/
theorem handleOnClick_toggles_only_path (item : NavItem) (s : NavState)
    (cs : List NavItem) (h : item.childItems = some cs) :
    (handleOnClick item s).2 = none ∧
    (handleOnClick item s).1.openKeys item.path
        = some (!(isOpenKey s.openKeys item.path)) ∧
    (∀ q, q ≠ item.path → (handleOnClick item s).1.openKeys q = s.openKeys q) ∧
    (∀ q, q ≠ item.path →
      (handleOnClick item (handleOnClick item s).1).1.openKeys q
        = s.openKeys q) := by
  obtain ⟨n, p, ci⟩ := item
  simp only [NavItem.childItems] at h
  subst h
  refine ⟨rfl, ?_, ?_, ?_⟩
  · simp [handleOnClick, toggleOpenKey, NavItem.path, NavItem.childItems]
  · intro q hq
    simp only [NavItem.path] at hq
    simp [handleOnClick, toggleOpenKey, NavItem.path, NavItem.childItems, hq]
  · intro q hq
    simp only [NavItem.path] at hq
    simp [handleOnClick, toggleOpenKey, NavItem.path, NavItem.childItems, hq]

theorem handleOnClick_toggles_only_path_witness :
    (handleOnClick (NavItem.mk "A" "A" (some [leafItem "A1" "A1"]))
        ⟨(fun q => if q = "A1" then some true else none), 0, none⟩).1.openKeys "A1"
      = some true ∧
    (handleOnClick (NavItem.mk "A" "A" (some [leafItem "A1" "A1"]))
        (handleOnClick (NavItem.mk "A" "A" (some [leafItem "A1" "A1"]))
          ⟨(fun q => if q = "A1" then some true else none), 0, none⟩).1).1.openKeys "A1"
      = some true :=
  ⟨(handleOnClick_toggles_only_path (NavItem.mk "A" "A" (some [leafItem "A1" "A1"]))
      ⟨(fun q => if q = "A1" then some true else none), 0, none⟩
      [leafItem "A1" "A1"] rfl).2.2.1 "A1" (by decide),
   (handleOnClick_toggles_only_path (NavItem.mk "A" "A" (some [leafItem "A1" "A1"]))
      ⟨(fun q => if q = "A1" then some true else none), 0, none⟩
      [leafItem "A1" "A1"] rfl).2.2.2 "A1" (by decide)⟩

mutual
theorem preorderWithAnc_anc_sub (items : List NavItem) (parent : String)
    (anc : List String) :
    ∀ e ∈ preorderWithAnc items parent anc, ∀ a ∈ anc, a ∈ e.2 := by
  match items with
  | [] => simp [preorderWithAnc]
  | .mk nm p ci :: rest =>
    intro e he a ha
    simp only [preorderWithAnc, List.mem_cons, List.mem_append] at he
    rcases he with rfl | h | h
    · exact ha
    · exact preorderWithAncOpt_anc_sub ci (mkId nm) (p :: anc) e h a
        (List.mem_cons_of_mem _ ha)
    · exact preorderWithAnc_anc_sub rest parent anc e h a ha

theorem preorderWithAncOpt_anc_sub (oc : Option (List NavItem)) (parent : String)
    (anc : List String) :
    ∀ e ∈ preorderWithAncOpt oc parent anc, ∀ a ∈ anc, a ∈ e.2 := by
  match oc with
  | none => simp [preorderWithAncOpt]
  | some cs =>
    intro e he
    exact preorderWithAnc_anc_sub cs parent anc e
      (by simpa [preorderWithAncOpt] using he)
end

mutual
theorem renderItemList_eq_filter (ok : OpenKeys) (items : List NavItem)
    (parent : String) (anc : List String)
    (hanc : ∀ a ∈ anc, isOpenKey ok a = true) :
    renderItemList ok items parent
      = (preorderWithAnc items parent anc).filterMap
          (fun e => if e.2.all (isOpenKey ok) then some e.1 else none) := by
  match items with
  | [] => simp [renderItemList, preorderWithAnc]
  | .mk nm p ci :: rest =>
    have hrest := renderItemList_eq_filter ok rest parent anc hanc
    simp only [renderItemList, preorderWithAnc, List.filterMap_cons,
      List.filterMap_append]
    have hkeep : (if anc.all (isOpenKey ok) then
        some (⟨mkId nm, parent⟩ : VisibleNode) else none)
        = some ⟨mkId nm, parent⟩ := by
      have : anc.all (isOpenKey ok) = true := List.all_eq_true.mpr hanc
      simp [this]
    rw [hkeep]
    by_cases hopen : isOpenKey ok p
    · have hchild := renderMenuItems_eq_filter ok ci (mkId nm) (p :: anc)
        (by
          intro a ha
          rcases List.mem_cons.mp ha with rfl | ha2
          · exact hopen
          · exact hanc a ha2)
      simp [hopen, hchild, hrest]
    · have hdead : (preorderWithAncOpt ci (mkId nm) (p :: anc)).filterMap
          (fun e => if e.2.all (isOpenKey ok) then some e.1 else none) = [] := by
        apply List.filterMap_eq_nil_iff.mpr
        intro e he
        have hp : p ∈ e.2 :=
          preorderWithAncOpt_anc_sub ci (mkId nm) (p :: anc) e he p
            (List.mem_cons_self p anc)
        have : e.2.all (isOpenKey ok) = false := by
          rcases hall : e.2.all (isOpenKey ok) with _ | _
          · rfl
          · exact absurd (List.all_eq_true.mp hall p hp) (by simpa using hopen)
        simp [this]
      rw [hdead]
      simp [hopen, hrest]

theorem renderMenuItems_eq_filter (ok : OpenKeys) (oc : Option (List NavItem))
    (parent : String) (anc : List String)
    (hanc : ∀ a ∈ anc, isOpenKey ok a = true) :
    renderMenuItems ok oc parent
      = (preorderWithAncOpt oc parent anc).filterMap
          (fun e => if e.2.all (isOpenKey ok) then some e.1 else none) := by
  match oc with
  | none => simp [renderMenuItems, preorderWithAncOpt]
  | some cs =>
    simp only [renderMenuItems, preorderWithAncOpt]
    exact renderItemList_eq_filter ok cs parent anc hanc
end

/-- C9: the visible-node list built by a render pass (the sequence of
`visibleNodes.push` calls of `renderMenuItems` on the root's children) is
exactly the pre-order traversal of the tree restricted to the nodes all of
whose strict ancestors are marked open in OpenKeys, in traversal order. -/
theorem renderMenuItems_is_open_preorder (ok : OpenKeys)
    (oc : Option (List NavItem)) :
    renderMenuItems ok oc "" = specVisibleNodes ok (oc.getD []) := by
  cases oc with
  | none => simp [renderMenuItems, specVisibleNodes, preorderWithAnc]
  | some items =>
    simp only [renderMenuItems, Option.getD, specVisibleNodes]
    exact renderItemList_eq_filter ok items "" [] (by simp)

theorem jsIndex_some_bounds {nodes : List VisibleNode} {i : Int} {v : VisibleNode}
    (h : jsIndex nodes i = some v) :
    0 ≤ i ∧ i < (nodes.length : Int) ∧ nodes[i.toNat]? = some v := by
  unfold jsIndex at h
  split at h
  · cases h
  · rename_i hnn
    have h0 : 0 ≤ i := le_of_not_lt hnn
    have hlt : i.toNat < nodes.length := by
      rcases List.getElem?_eq_some.mp h with ⟨hl, _⟩
      exact hl
    refine ⟨h0, ?_, h⟩
    omega

theorem jsIndex_of_bounds {nodes : List VisibleNode} {i : Int}
    (h0 : 0 ≤ i) (h1 : i < (nodes.length : Int)) :
    ∃ v, jsIndex nodes i = some v ∧ nodes[i.toNat]? = some v := by
  have hlt : i.toNat < nodes.length := by omega
  refine ⟨nodes[i.toNat], ?_, List.getElem?_eq_getElem hlt⟩
  unfold jsIndex
  rw [if_neg (not_lt.mpr h0)]
  exact List.getElem?_eq_getElem hlt

theorem jsFindIndex_of_exists {p : VisibleNode → Bool} {l : List VisibleNode}
    (h : ∃ x ∈ l, p x = true) :
    0 ≤ jsFindIndex p l ∧ jsFindIndex p l < (l.length : Int) := by
  induction l with
  | nil => simp at h
  | cons y ys ih =>
    by_cases hy : p y
    · simp [jsFindIndex, hy]
    · obtain ⟨x, hx, hpx⟩ := h
      rcases List.mem_cons.mp hx with rfl | hx2
      · exact absurd hpx (by simpa using hy)
      · have := ih ⟨x, hx2, hpx⟩
        simp only [jsFindIndex, hy, if_false, ite_false]
        have hne : jsFindIndex p ys ≠ -1 := by omega
        rw [if_neg hne]
        simp only [List.length_cons]
        push_cast
        omega

theorem jsFindIndex_of_first {p : VisibleNode → Bool} {l : List VisibleNode}
    {j : Nat} {x : VisibleNode} (hget : l[j]? = some x) (hpx : p x = true)
    (hmin : ∀ k < j, ∀ u, l[k]? = some u → p u = false) :
    jsFindIndex p l = (j : Int) := by
  induction l generalizing j with
  | nil => simp at hget
  | cons y ys ih =>
    cases j with
    | zero =>
      simp only [List.getElem?_cons_zero, Option.some.injEq] at hget
      subst hget
      simp [jsFindIndex, hpx]
    | succ k =>
      have hy : p y = false := hmin 0 (Nat.succ_pos k) y (by simp)
      simp only [List.getElem?_cons_succ] at hget
      have hrec := ih hget (fun k2 hk2 u hu =>
        hmin (k2 + 1) (Nat.succ_lt_succ hk2) u (by simpa using hu))
      simp only [jsFindIndex, hy, Bool.false_eq_true, if_false, ite_false]
      rw [hrec]
      have : ((k : Int) + 1) ≠ -1 := by omega
      rw [if_neg (by omega : ¬(k : Int) = -1)]
      push_cast
      omega

theorem jsSlice_mem {l : List VisibleNode} {a b : Int} {x : VisibleNode}
    (h : x ∈ jsSlice l a b) : x ∈ l := by
  unfold jsSlice at h
  exact List.take_subset _ _ (List.drop_subset _ _ h)

theorem jsSlice_drop {l : List VisibleNode} {a : Int} (h : 0 ≤ a) :
    jsSlice l a (l.length : Int) = l.drop a.toNat := by
  simp only [jsSlice]
  rw [if_neg (not_lt.mpr h), if_neg (by omega : ¬(l.length : Int) < 0)]
  rw [min_self]
  rw [Int.toNat_natCast, List.take_length]
  by_cases hle : a ≤ (l.length : Int)
  · rw [min_eq_left hle]
  · rw [min_eq_right (le_of_not_le hle)]
    rw [Int.toNat_natCast, List.drop_length]
    have : l.length ≤ a.toNat := by omega
    rw [List.drop_eq_nil_of_le this]

theorem jsSlice_take {l : List VisibleNode} {c : Int} (h : 0 ≤ c) :
    jsSlice l 0 c = l.take c.toNat := by
  simp only [jsSlice]
  rw [if_neg (by omega : ¬(0 : Int) < 0), if_neg (not_lt.mpr h)]
  rw [min_eq_left (by omega : (0 : Int) ≤ (l.length : Int))]
  simp only [Int.toNat_zero, List.drop_zero]
  by_cases hle : c ≤ (l.length : Int)
  · rw [min_eq_left hle]
  · rw [min_eq_right (le_of_not_le hle)]
    rw [Int.toNat_natCast, List.take_length]
    exact (List.take_of_length_le (by omega)).symm

theorem findCharMatch_mem {ch : Char} {l : List VisibleNode} {m : VisibleNode}
    (h : findCharMatch ch l = some (some m)) : m ∈ l := by
  induction l with
  | nil => simp [findCharMatch] at h
  | cons el rest ih =>
    simp only [findCharMatch] at h
    rcases hd : el.id.data with _ | ⟨c, cs⟩
    · simp only [hd] at h
      exact Option.noConfusion h
    · simp only [hd] at h
      by_cases hc : c.toUpper = ch
      · rw [if_pos hc] at h
        injection h with h2
        injection h2 with h3
        exact h3 ▸ List.mem_cons_self el rest
      · rw [if_neg hc] at h
        exact List.mem_cons_of_mem el (ih h)

theorem findCharMatch_eq_find? {ch : Char} {l : List VisibleNode}
    (h : ∀ v ∈ l, v.id ≠ "") :
    findCharMatch ch l = some (l.find? (firstCharMatches ch)) := by
  induction l with
  | nil => simp [findCharMatch]
  | cons el rest ih =>
    have hne : el.id ≠ "" := h el (List.mem_cons_self el rest)
    have hd : el.id.data ≠ [] := by
      intro hdata
      apply hne
      cases hid : el.id with
      | mk dat => rw [hid] at hdata; simp at hdata; simp [hdata]
    rcases hdat : el.id.data with _ | ⟨c, cs⟩
    · exact absurd hdat hd
    · have hfc : firstCharMatches ch el = decide (c.toUpper = ch) := by
        simp [firstCharMatches, hdat]
      simp only [findCharMatch, hdat]
      by_cases hc : c.toUpper = ch
      · rw [if_pos hc]
        rw [List.find?_cons_of_pos _ (by simp [hfc, hc])]
      · rw [if_neg hc]
        rw [List.find?_cons_of_neg _ (by simp [hfc, hc])]
        exact ih (fun v hv => h v (List.mem_cons_of_mem el hv))

theorem handleDownArrow_bounds {nodes : List VisibleNode} {s s2 : NavState}
    (h0 : 0 ≤ s.cursor) (h1 : s.cursor < (nodes.length : Int))
    (h : handleDownArrow nodes s = some s2) :
    0 ≤ s2.cursor ∧ s2.cursor < (nodes.length : Int) := by
  unfold handleDownArrow at h
  split at h
  · rename_i hlt
    split at h
    · rename_i n heq
      injection h with h2
      subst h2
      constructor
      · simp only []
        omega
      · simp only []
        omega
    · cases h
  · injection h with h2
    subst h2
    exact ⟨h0, h1⟩

theorem handleUpArrow_bounds {nodes : List VisibleNode} {s s2 : NavState}
    (h0 : 0 ≤ s.cursor) (h1 : s.cursor < (nodes.length : Int))
    (h : handleUpArrow nodes s = some s2) :
    0 ≤ s2.cursor ∧ s2.cursor < (nodes.length : Int) := by
  unfold handleUpArrow at h
  split at h
  · rename_i hge
    split at h
    · rename_i n heq
      injection h with h2
      subst h2
      constructor
      · simp only []
        omega
      · simp only []
        omega
    · cases h
  · injection h with h2
    subst h2
    exact ⟨h0, h1⟩

theorem findParentNode_bounds {nodes : List VisibleNode} {s s2 : NavState}
    (h0 : 0 ≤ s.cursor) (h1 : s.cursor < (nodes.length : Int))
    (h : findParentNode nodes s = some s2) :
    0 ≤ s2.cursor ∧ s2.cursor < (nodes.length : Int) := by
  unfold findParentNode at h
  split at h
  · injection h with h2
    subst h2
    exact ⟨h0, h1⟩
  · split at h
    · cases h
    · split at h
      · split at h
        · rename_i n heq
          injection h with h2
          subst h2
          obtain ⟨hb0, hb1, _⟩ := jsIndex_some_bounds heq
          exact ⟨hb0, hb1⟩
        · cases h
      · injection h with h2
        subst h2
        exact ⟨h0, h1⟩

theorem findNodeMatching_bounds {nodes : List VisibleNode} {ch : Char}
    {s s2 : NavState}
    (h0 : 0 ≤ s.cursor) (h1 : s.cursor < (nodes.length : Int))
    (h : findNodeMatching nodes ch s = some s2) :
    0 ≤ s2.cursor ∧ s2.cursor < (nodes.length : Int) := by
  unfold findNodeMatching at h
  split at h
  · cases h
  · injection h with h2
    subst h2
    exact ⟨h0, h1⟩
  · rename_i m heq
    injection h with h2
    subst h2
    have hmem : m ∈ nodes := by
      have := findCharMatch_mem heq
      rcases List.mem_append.mp this with hmm | hmm
      · exact jsSlice_mem hmm
      · exact jsSlice_mem hmm
    have := jsFindIndex_of_exists (p := fun el => el.id = m.id)
      ⟨m, hmem, by simp⟩
    exact this

theorem handleKeyDown_eq_down (dom : String → Option DomItemInfo)
    (nodes : List VisibleNode) (shiftKey : Bool) (item : NavItem) (s : NavState) :
    handleKeyDown dom nodes 40 shiftKey item s
      = (handleDownArrow nodes s).map (fun s2 => (s2, none)) := by
  unfold handleKeyDown
  rw [if_neg (by decide : ¬((40 : Nat) = 32 ∨ (40 : Nat) = 13)), if_pos rfl]

theorem handleKeyDown_eq_up (dom : String → Option DomItemInfo)
    (nodes : List VisibleNode) (shiftKey : Bool) (item : NavItem) (s : NavState) :
    handleKeyDown dom nodes 38 shiftKey item s
      = (handleUpArrow nodes s).map (fun s2 => (s2, none)) := by
  unfold handleKeyDown
  rw [if_neg (by decide : ¬((38 : Nat) = 32 ∨ (38 : Nat) = 13)),
    if_neg (by decide : ¬(38 : Nat) = 40), if_pos rfl]

theorem handleKeyDown_eq_tab (dom : String → Option DomItemInfo)
    (nodes : List VisibleNode) (shiftKey : Bool) (item : NavItem) (s : NavState) :
    handleKeyDown dom nodes 9 shiftKey item s
      = (if shiftKey then (handleUpArrow nodes s).map (fun s2 => (s2, none))
         else (handleDownArrow nodes s).map (fun s2 => (s2, none))) := by
  unfold handleKeyDown
  rw [if_neg (by decide : ¬((9 : Nat) = 32 ∨ (9 : Nat) = 13)),
    if_neg (by decide : ¬(9 : Nat) = 40), if_neg (by decide : ¬(9 : Nat) = 38),
    if_neg (by decide : ¬(9 : Nat) = 39), if_neg (by decide : ¬(9 : Nat) = 37),
    if_neg (by decide : ¬(9 : Nat) = 36), if_neg (by decide : ¬(9 : Nat) = 35),
    if_pos rfl]

/-- C4: for every visible-node list, DOM read-back, key code, item and
state whose cursor lies inside `[0, length − 1]`, whenever `handleKeyDown`
completes (without a JS exception) the resulting cursor again lies inside
`[0, length − 1]`; moreover Down and Tab at the last index, and Up and
Shift+Tab at index 0, leave the whole state unchanged and emit no
selection. -/
theorem handleKeyDown_cursor_in_bounds (dom : String → Option DomItemInfo)
    (nodes : List VisibleNode) (keyCode : Nat) (shiftKey : Bool)
    (item : NavItem) (s : NavState)
    (h0 : 0 ≤ s.cursor) (h1 : s.cursor < (nodes.length : Int)) :
    (∀ s2 out, handleKeyDown dom nodes keyCode shiftKey item s = some (s2, out) →
       0 ≤ s2.cursor ∧ s2.cursor < (nodes.length : Int)) ∧
    (s.cursor = (nodes.length : Int) - 1 →
       handleKeyDown dom nodes 40 shiftKey item s = some (s, none) ∧
       handleKeyDown dom nodes 9 false item s = some (s, none)) ∧
    (s.cursor = 0 →
       handleKeyDown dom nodes 38 shiftKey item s = some (s, none) ∧
       handleKeyDown dom nodes 9 true item s = some (s, none)) := by
  refine ⟨?_, ?_, ?_⟩
  · intro s2 out h
    unfold handleKeyDown at h
    by_cases hk1 : keyCode = 32 ∨ keyCode = 13
    · rw [if_pos hk1] at h
      injection h with h2
      have hfst : s2 = (handleOnClick item s).1 := congrArg Prod.fst h2.symm
      rw [hfst, (handleOnClick_fst_cursor item s).1]
      exact ⟨h0, h1⟩
    rw [if_neg hk1] at h
    by_cases hk2 : keyCode = 40
    · rw [if_pos hk2] at h
      obtain ⟨s3, h3, heq⟩ := Option.map_eq_some'.mp h
      have : s2 = s3 := (congrArg Prod.fst heq).symm
      exact this ▸ handleDownArrow_bounds h0 h1 h3
    rw [if_neg hk2] at h
    by_cases hk3 : keyCode = 38
    · rw [if_pos hk3] at h
      obtain ⟨s3, h3, heq⟩ := Option.map_eq_some'.mp h
      have : s2 = s3 := (congrArg Prod.fst heq).symm
      exact this ▸ handleUpArrow_bounds h0 h1 h3
    rw [if_neg hk3] at h
    by_cases hk4 : keyCode = 39
    · rw [if_pos hk4] at h
      split at h
      · injection h with h2
        have : s2 = s := congrArg Prod.fst h2.symm
        exact this ▸ ⟨h0, h1⟩
      · split at h
        · cases h
        · split_ifs at h with hexp hpop
          · obtain ⟨s3, h3, heq⟩ := Option.map_eq_some'.mp h
            have : s2 = s3 := (congrArg Prod.fst heq).symm
            exact this ▸ handleDownArrow_bounds h0 h1 h3
          · injection h with h2
            have hfst : s2 = (handleOnClick item s).1 := congrArg Prod.fst h2.symm
            rw [hfst, (handleOnClick_fst_cursor item s).1]
            exact ⟨h0, h1⟩
          · injection h with h2
            have : s2 = s := congrArg Prod.fst h2.symm
            exact this ▸ ⟨h0, h1⟩
    rw [if_neg hk4] at h
    by_cases hk5 : keyCode = 37
    · rw [if_pos hk5] at h
      split at h
      · injection h with h2
        have : s2 = s := congrArg Prod.fst h2.symm
        exact this ▸ ⟨h0, h1⟩
      · split at h
        · cases h
        · split_ifs at h with hexp hpop
          · injection h with h2
            have hfst : s2 = (handleOnClick item s).1 := congrArg Prod.fst h2.symm
            rw [hfst, (handleOnClick_fst_cursor item s).1]
            exact ⟨h0, h1⟩
          · obtain ⟨s3, h3, heq⟩ := Option.map_eq_some'.mp h
            have : s2 = s3 := (congrArg Prod.fst heq).symm
            exact this ▸ findParentNode_bounds h0 h1 h3
          · injection h with h2
            have : s2 = s := congrArg Prod.fst h2.symm
            exact this ▸ ⟨h0, h1⟩
    rw [if_neg hk5] at h
    by_cases hk6 : keyCode = 36
    · rw [if_pos hk6] at h
      split at h
      · rename_i n heq
        injection h with h2
        have hs2 : s2 = { s with cursor := 0, currentNodeId := some n.id } :=
          congrArg Prod.fst h2.symm
        subst hs2
        obtain ⟨_, hb1, _⟩ := jsIndex_some_bounds heq
        constructor
        · simp only []
          omega
        · simp only []
          omega
      · cases h
    rw [if_neg hk6] at h
    by_cases hk7 : keyCode = 35
    · rw [if_pos hk7] at h
      split at h
      · rename_i n heq
        injection h with h2
        have hs2 : s2 = { s with cursor := (nodes.length : Int) - 1,
                                 currentNodeId := some n.id } :=
          congrArg Prod.fst h2.symm
        subst hs2
        obtain ⟨hb0, hb1, _⟩ := jsIndex_some_bounds heq
        constructor
        · simp only []
          omega
        · simp only []
          omega
      · cases h
    rw [if_neg hk7] at h
    by_cases hk8 : keyCode = 9
    · rw [if_pos hk8] at h
      by_cases hs : shiftKey = true
      · rw [if_pos hs] at h
        obtain ⟨s3, h3, heq⟩ := Option.map_eq_some'.mp h
        have : s2 = s3 := (congrArg Prod.fst heq).symm
        exact this ▸ handleUpArrow_bounds h0 h1 h3
      · rw [if_neg hs] at h
        obtain ⟨s3, h3, heq⟩ := Option.map_eq_some'.mp h
        have : s2 = s3 := (congrArg Prod.fst heq).symm
        exact this ▸ handleDownArrow_bounds h0 h1 h3
    rw [if_neg hk8] at h
    by_cases hk9 : 65 ≤ keyCode ∧ keyCode ≤ 90
    · rw [if_pos hk9] at h
      obtain ⟨s3, h3, heq⟩ := Option.map_eq_some'.mp h
      have : s2 = s3 := (congrArg Prod.fst heq).symm
      exact this ▸ findNodeMatching_bounds h0 h1 h3
    · rw [if_neg hk9] at h
      injection h with h2
      have : s2 = s := congrArg Prod.fst h2.symm
      exact this ▸ ⟨h0, h1⟩
  · intro hlast
    have hguard : ¬(s.cursor + 1 < (nodes.length : Int)) := by omega
    have hdown : handleDownArrow nodes s = some s := by
      unfold handleDownArrow
      rw [if_neg hguard]
    constructor
    · rw [handleKeyDown_eq_down, hdown]
      rfl
    · rw [handleKeyDown_eq_tab, if_neg (by decide : ¬false = true), hdown]
      rfl
  · intro hzero
    have hguard : ¬(1 ≤ s.cursor) := by omega
    have hup : handleUpArrow nodes s = some s := by
      unfold handleUpArrow
      rw [if_neg hguard]
    constructor
    · rw [handleKeyDown_eq_up, hup]
      rfl
    · rw [handleKeyDown_eq_tab, if_pos rfl, hup]
      rfl

theorem handleKeyDown_cursor_in_bounds_witness :
    0 ≤ (1 : Int) ∧ (1 : Int) < ((fruitNodes.length : Nat) : Int) ∧
    handleKeyDown (fun _ => none) fruitNodes 38 false (leafItem "x" "x")
        ⟨noOpenKeys, 0, none⟩ = some (⟨noOpenKeys, 0, none⟩, none) := by
  refine ⟨?_, ?_, ?_⟩
  · have := (handleKeyDown_cursor_in_bounds (fun _ => none) fruitNodes 40 false
      (leafItem "x" "x") ⟨noOpenKeys, 0, none⟩ (by decide) (by decide)).1
      ⟨noOpenKeys, 1, some "Banana"⟩ none rfl
    exact this.1
  · have := (handleKeyDown_cursor_in_bounds (fun _ => none) fruitNodes 40 false
      (leafItem "x" "x") ⟨noOpenKeys, 0, none⟩ (by decide) (by decide)).1
      ⟨noOpenKeys, 1, some "Banana"⟩ none rfl
    exact this.2
  · exact ((handleKeyDown_cursor_in_bounds (fun _ => none) fruitNodes 38 false
      (leafItem "x" "x") ⟨noOpenKeys, 0, none⟩ (by decide)
      (by decide)).2.2 rfl).1

/-- C8: Left arrow, when the current node is not expanded (its DOM
`ariaExpanded` is not `'true'`, covering non-expandable and collapsed
nodes), moves the cursor to the index of the current node's parent in the
visible-node list — the smallest index holding the parent id — and focuses
it; when the current node is top level (its recorded `parent` is `""`) the
state is unchanged and no selection is emitted. -/
theorem left_arrow_moves_to_parent (dom : String → Option DomItemInfo)
    (nodes : List VisibleNode) (shiftKey : Bool) (item : NavItem) (s : NavState)
    (cid : String) (di : DomItemInfo) (v : VisibleNode)
    (hcid : s.currentNodeId = some cid)
    (hdom : dom cid = some di)
    (hexp : di.ariaExpanded ≠ some true)
    (hfind : nodes.find? (fun el => el.id = cid) = some v) :
    (v.parent = "" → handleKeyDown dom nodes 37 shiftKey item s = some (s, none)) ∧
    (∀ (j : Nat) (w : VisibleNode), v.parent ≠ "" → nodes[j]? = some w →
      w.id = v.parent →
      (∀ k < j, ∀ u, nodes[k]? = some u → u.id ≠ v.parent) →
      handleKeyDown dom nodes 37 shiftKey item s
        = some ({ s with cursor := (j : Int), currentNodeId := some w.id }, none)) := by
  have hstep : handleKeyDown dom nodes 37 shiftKey item s
      = (findParentNode nodes s).map (fun s2 => (s2, none)) := by
    unfold handleKeyDown
    rw [if_neg (by decide : ¬((37 : Nat) = 32 ∨ (37 : Nat) = 13)),
      if_neg (by decide : ¬(37 : Nat) = 40), if_neg (by decide : ¬(37 : Nat) = 38),
      if_neg (by decide : ¬(37 : Nat) = 39), if_pos rfl, hcid]
    simp only [hdom]
    rw [if_neg (by simpa using hexp)]
    rw [if_pos ?side]
    case side =>
      rcases di with ⟨ae, hp⟩
      rcases ae with _ | b
      · exact Or.inr (Or.inl rfl)
      · cases b
        · exact Or.inr (Or.inr rfl)
        · exact absurd rfl hexp
  constructor
  · intro hroot
    rw [hstep]
    unfold findParentNode
    rw [hcid]
    simp only [hfind]
    rw [if_neg (by simpa using hroot)]
    rfl
  · intro j w hnotroot hget hwid hmin
    rw [hstep]
    unfold findParentNode
    rw [hcid]
    simp only [hfind]
    rw [if_pos hnotroot]
    have hidx : jsFindIndex (fun el => el.id = v.parent) nodes = (j : Int) :=
      jsFindIndex_of_first hget (by simp [hwid]) (fun k hk u hu => by
        simpa using hmin k hk u hu)
    rw [hidx]
    have hji : jsIndex nodes (j : Int) = some w := by
      unfold jsIndex
      rw [if_neg (by omega : ¬(j : Int) < 0)]
      rw [Int.toNat_natCast]
      exact hget
    rw [hji]
    rfl

theorem left_arrow_moves_to_parent_witness :
    handleKeyDown (fun _ => some ⟨none, false⟩) pcNodes 37 false (leafItem "x" "x")
        ⟨noOpenKeys, 1, some "Ch"⟩
      = some (⟨noOpenKeys, (0 : Int), some "P"⟩, none) :=
  (left_arrow_moves_to_parent (fun _ => some ⟨none, false⟩) pcNodes false
      (leafItem "x" "x") ⟨noOpenKeys, 1, some "Ch"⟩ "Ch" ⟨none, false⟩ ⟨"Ch", "P"⟩
      rfl rfl (by decide) (by decide)).2 0 ⟨"P", ""⟩ (by decide) (by decide)
      (by decide) (fun k hk => by omega)

theorem mem_of_getElem?_eq_some {l : List VisibleNode} {i : Nat} {a : VisibleNode}
    (h : l[i]? = some a) : a ∈ l := by
  rcases List.getElem?_eq_some.mp h with ⟨hl, hEq⟩
  exact hEq ▸ List.getElem_mem hl

theorem jsSlice_decomp {nodes : List VisibleNode} {s : NavState} {c : Nat}
    (hc : s.cursor = (c : Int)) :
    jsSlice nodes (s.cursor + 1) (nodes.length : Int) ++ jsSlice nodes 0 s.cursor
      = nodes.drop (c + 1) ++ nodes.take c := by
  have h1 : jsSlice nodes (s.cursor + 1) (nodes.length : Int) = nodes.drop (c + 1) := by
    rw [hc, jsSlice_drop (by omega)]
    congr 1
  have h2 : jsSlice nodes 0 s.cursor = nodes.take c := by
    rw [hc, jsSlice_take (by omega)]
    congr 1
  rw [h1, h2]

/-- C10: with pairwise-distinct, nonempty ids, the sequence a typeahead
keypress searches is `drop (cursor+1) ++ take cursor` — the node at the
cursor index itself excluded — so when no node at an index other than the
cursor matches the pressed letter, `findNodeMatching` leaves the state
(cursor and focus) unchanged, even when the cursor's own node matches. -/
theorem typeahead_excludes_cursor_node (nodes : List VisibleNode) (ch : Char)
    (s : NavState) (c : Nat)
    (hc : s.cursor = (c : Int)) (hclt : c < nodes.length)
    (hne : ∀ v ∈ nodes, v.id ≠ "")
    (hnodup : (nodes.map VisibleNode.id).Nodup)
    (hnomatch : ∀ j : Nat, j < nodes.length → j ≠ c → ∀ v, nodes[j]? = some v →
        firstCharMatches ch v = false) :
    (jsSlice nodes (s.cursor + 1) (nodes.length : Int) ++ jsSlice nodes 0 s.cursor
        = nodes.drop (c + 1) ++ nodes.take c) ∧
    findNodeMatching nodes ch s = some s := by
  refine ⟨jsSlice_decomp hc, ?_⟩
  have hsne : ∀ v ∈ nodes.drop (c + 1) ++ nodes.take c, v.id ≠ "" := by
    intro v hv
    rcases List.mem_append.mp hv with hd | ht
    · exact hne v (List.drop_subset _ _ hd)
    · exact hne v (List.take_subset _ _ ht)
  have hnone : (nodes.drop (c + 1) ++ nodes.take c).find? (firstCharMatches ch)
      = none := by
    apply List.find?_eq_none.mpr
    intro v hv
    rcases List.mem_append.mp hv with hd | ht
    · obtain ⟨i, hi, rfl⟩ := List.getElem_of_mem hd
      have hi2 : (nodes.drop (c + 1))[i]? = some (nodes.drop (c + 1))[i] :=
        List.getElem?_eq_getElem hi
      rw [List.getElem?_drop] at hi2
      have hlt : c + 1 + i < nodes.length := by
        rcases List.getElem?_eq_some.mp hi2 with ⟨hl, _⟩
        exact hl
      have := hnomatch (c + 1 + i) hlt (by omega) _ hi2
      intro hcontra
      rw [this] at hcontra
      exact Bool.false_ne_true hcontra
    · obtain ⟨i, hi, rfl⟩ := List.getElem_of_mem ht
      have hi2 : (nodes.take c)[i]? = some (nodes.take c)[i] :=
        List.getElem?_eq_getElem hi
      rw [List.getElem?_take] at hi2
      have hic : i < c := by
        by_contra hge
        rw [if_neg hge] at hi2
        cases hi2
      rw [if_pos hic] at hi2
      have := hnomatch i (by omega) (by omega) _ hi2
      intro hcontra
      rw [this] at hcontra
      exact Bool.false_ne_true hcontra
  unfold findNodeMatching
  rw [jsSlice_decomp hc, findCharMatch_eq_find? hsne, hnone]

theorem typeahead_excludes_cursor_node_witness :
    findNodeMatching fruitNodes 'A' ⟨noOpenKeys, 0, some "Apple"⟩
      = some ⟨noOpenKeys, 0, some "Apple"⟩ :=
  (typeahead_excludes_cursor_node fruitNodes 'A' ⟨noOpenKeys, 0, some "Apple"⟩ 0
    rfl (by decide) (by decide) (by decide)
    (by
      intro j hj hjne v hv
      simp only [fruitNodes, List.length_cons, List.length_nil] at hj
      interval_cases j
      · exact absurd rfl hjne
      · simp only [fruitNodes] at hv
        injection hv with hv2
        subst hv2
        decide
      · simp only [fruitNodes] at hv
        injection hv with hv2
        subst hv2
        decide)).2

theorem jsFindIndex_id_of_nodup {nodes : List VisibleNode} {m : VisibleNode}
    (hnodup : (nodes.map VisibleNode.id).Nodup) (hmem : m ∈ nodes) :
    ∃ j : Nat, jsFindIndex (fun el => el.id = m.id) nodes = (j : Int) ∧
      nodes[j]? = some m ∧ ∀ j2 : Nat, nodes[j2]? = some m → j2 = j := by
  induction nodes with
  | nil => cases hmem
  | cons x xs ih =>
    simp only [List.map_cons, List.nodup_cons] at hnodup
    by_cases hx : x.id = m.id
    · have hmx : m = x := by
        rcases List.mem_cons.mp hmem with rfl | hm2
        · rfl
        · exact absurd (hx ▸ List.mem_map.mpr ⟨m, hm2, rfl⟩) hnodup.1
      subst hmx
      refine ⟨0, ?_, by simp, ?_⟩
      · simp [jsFindIndex, hx]
      · intro j2 hj2
        cases j2 with
        | zero => rfl
        | succ k =>
          simp only [List.getElem?_cons_succ] at hj2
          exact absurd (List.mem_map.mpr ⟨m, mem_of_getElem?_eq_some hj2, rfl⟩)
            hnodup.1
    · have hm2 : m ∈ xs := by
        rcases List.mem_cons.mp hmem with rfl | h2
        · exact absurd rfl hx
        · exact h2
      obtain ⟨j, hj, hget, huniq⟩ := ih hnodup.2 hm2
      refine ⟨j + 1, ?_, by simpa using hget, ?_⟩
      · simp only [jsFindIndex, hx, decide_eq_true_eq, if_false, ite_false]
        rw [hj, if_neg (by omega : ¬(j : Int) = -1)]
        push_cast
        ring
      · intro j2 hj2
        cases j2 with
        | zero =>
          simp only [List.getElem?_cons_zero, Option.some.injEq] at hj2
          exact absurd (hj2 ▸ rfl) hx
        | succ k =>
          simp only [List.getElem?_cons_succ] at hj2
          exact congrArg Nat.succ (huniq k hj2)

/-- C3 counterexample: with the visible-node list
`[⟨"Apple","x"⟩, ⟨"Apple","y"⟩]` (two distinct nodes sharing the id
`"Apple"`) and the cursor at index 0, pressing `'A'` matches the node
`⟨"Apple","y"⟩`, whose only index in the list is 1, yet the cursor is set
to 0 (the `findIndex` by id finds the earlier node with the same id), so
the cursor does NOT move to the matched node's index. -/
theorem typeahead_dup_ids_counterexample :
    (dupNodes.drop (0 + 1) ++ dupNodes.take 0).find? (firstCharMatches 'A')
        = some ⟨"Apple", "y"⟩ ∧
    dupNodes[1]? = some (⟨"Apple", "y"⟩ : VisibleNode) ∧
    (∀ j : Nat, j ≠ 1 → dupNodes[j]? ≠ some (⟨"Apple", "y"⟩ : VisibleNode)) ∧
    findNodeMatching dupNodes 'A' ⟨noOpenKeys, 0, none⟩
        = some ⟨noOpenKeys, 0, some "Apple"⟩ ∧
    (0 : Int) ≠ (1 : Int) := by
  refine ⟨by decide, by decide, ?_, rfl, by decide⟩
  intro j hj
  match j with
  | 0 => decide
  | 1 => exact absurd rfl hj
  | k + 2 =>
    have hnone : dupNodes[k + 2]? = none := by
      apply List.getElem?_eq_none
      simp [dupNodes]
    rw [hnone]
    exact fun hcontra => Option.noConfusion hcontra

/-- C3 amended: a typeahead keypress searches `drop (cursor+1) ++ take
cursor` in order, matching on the first character of the id
case-insensitively; on a match the cursor moves to the first index in the
whole list whose node id equals the matched node's id — which, for lists
with pairwise-distinct (and nonempty) ids, is exactly the matched node's
own (unique) index — and the current node id becomes the matched id; when
no node matches, the state is unchanged. -/
theorem typeahead_moves_to_matched_id (nodes : List VisibleNode) (ch : Char)
    (s : NavState) (c : Nat)
    (hc : s.cursor = (c : Int)) (hclt : c < nodes.length)
    (hne : ∀ v ∈ nodes, v.id ≠ "")
    (hnodup : (nodes.map VisibleNode.id).Nodup) :
    (∀ m, (nodes.drop (c + 1) ++ nodes.take c).find? (firstCharMatches ch)
        = some m →
      ∃ j : Nat, nodes[j]? = some m ∧ (∀ j2 : Nat, nodes[j2]? = some m → j2 = j) ∧
        findNodeMatching nodes ch s
          = some { s with cursor := (j : Int), currentNodeId := some m.id }) ∧
    ((nodes.drop (c + 1) ++ nodes.take c).find? (firstCharMatches ch) = none →
      findNodeMatching nodes ch s = some s) := by
  have hsne : ∀ v ∈ nodes.drop (c + 1) ++ nodes.take c, v.id ≠ "" := by
    intro v hv
    rcases List.mem_append.mp hv with hd | ht
    · exact hne v (List.drop_subset _ _ hd)
    · exact hne v (List.take_subset _ _ ht)
  constructor
  · intro m hm
    have hmem : m ∈ nodes := by
      rcases List.mem_append.mp (List.mem_of_find?_eq_some hm) with hd | ht
      · exact List.drop_subset _ _ hd
      · exact List.take_subset _ _ ht
    obtain ⟨j, hj, hget, huniq⟩ := jsFindIndex_id_of_nodup hnodup hmem
    refine ⟨j, hget, huniq, ?_⟩
    unfold findNodeMatching
    rw [jsSlice_decomp hc, findCharMatch_eq_find? hsne, hm]
    simp only [hj]
  · intro hmnone
    unfold findNodeMatching
    rw [jsSlice_decomp hc, findCharMatch_eq_find? hsne, hmnone]

theorem typeahead_moves_to_matched_id_witness :
    findNodeMatching fruitNodes 'C' ⟨noOpenKeys, 0, some "Apple"⟩
        = some ⟨noOpenKeys, 2, some "Cherry"⟩ ∧
    findNodeMatching fruitNodes 'A' ⟨noOpenKeys, 2, some "Cherry"⟩
        = some ⟨noOpenKeys, 0, some "Apple"⟩ ∧
    findNodeMatching fruitNodes 'Z' ⟨noOpenKeys, 0, some "Apple"⟩
        = some ⟨noOpenKeys, 0, some "Apple"⟩ :=
  ⟨rfl, rfl,
   (typeahead_moves_to_matched_id fruitNodes 'Z' ⟨noOpenKeys, 0, some "Apple"⟩ 0
      rfl (by decide) (by decide) (by decide)).2 (by decide)⟩
